import Mathlib

/-!
Shallow embedding of the offline exchange simulator
(trading_bot/bot/mock_exchange.py, class MockExchange).

Python floats are modelled as exact rationals; Python dicts keyed by
strings or integers are modelled as association lists; Python exceptions
are modelled by an explicit error type returned through Except.  Wall
clock fields that never influence control flow (timestamp, datetime,
clientOrderId, fee, trades, info) are omitted from the order record.
Calls to random.uniform are modelled by explicit parameters carrying the
drawn values; where a claim depends on the sampled range the range is an
explicit hypothesis.
-/

/-- One per-asset balance record: the dict
`\x7b'free': .., 'used': .., 'total': ..\x7d` of `self.balances`. -/
structure Balance where
  free : ℚ
  used : ℚ
  total : ℚ
deriving DecidableEq

/-- An order record as stored in `self.orders` (time fields and constant
fields omitted; the id is kept as the integer behind `str(order_counter)`). -/
structure Order where
  id : ℕ
  symbol : String
  type : String
  side : String
  price : ℚ
  amount : ℚ
  cost : ℚ
  average : ℚ
  filled : ℚ
  remaining : ℚ
  status : String
deriving DecidableEq

/-- One OHLCV candle `[ts, open, high, low, close, volume]`. -/
structure Candle where
  ts : ℤ
  op : ℚ
  hi : ℚ
  lo : ℚ
  cl : ℚ
  vol : ℚ
deriving DecidableEq

/-- Error taxonomy.  All constructors except `keyError` correspond to a
`raise MockExchangeError(...)` in the source; `keyError` models the
builtin KeyError escaping from an unguarded dict lookup. -/
inductive MockErr where
  | unknownSymbol (s : String)
  | invalidOrderType (s : String)
  | invalidSide (s : String)
  | insufficientFunds (asset : String)
  | orderNotFound (oid : ℕ)
  | cannotCancelClosed (oid : ℕ)
  | keyError (k : String)
deriving DecidableEq

/-- Whether the raised exception is an instance of the custom
MockExchangeError class (KeyError is a builtin, not in the taxonomy). -/
def MockErr.isMockExchangeError : MockErr → Bool
  | .keyError _ => false
  | _ => true

/-- First-match association-list lookup, the model of a dict read. -/
def alookup {κ α : Type} [DecidableEq κ] : List (κ × α) → κ → Option α
  | [], _ => none
  | (k, v) :: t, a => if k = a then some v else alookup t a

/-- Pointwise update of every entry carrying the given key, the model of
a dict write to an existing key. -/
def aupdate {κ α : Type} [DecidableEq κ] (l : List (κ × α)) (k : κ) (f : α → α) :
    List (κ × α) :=
  l.map (fun p => if p.1 = k then (p.1, f p.2) else p)

/-- `base, quote = symbol.split('/')`: characters before the first slash
and characters after it. -/
def splitSymbol (s : String) : String × String :=
  let p := s.toList.span (fun c => c ≠ '/')
  (String.mk p.1, String.mk (p.2.drop 1))

/-- The mutable state of one MockExchange instance. -/
structure ExchangeState where
  balances : List (String × Balance)
  orders : List (ℕ × Order)
  orderCounter : ℕ
  currentPrices : List (String × ℚ)
  priceHistory : List (String × List Candle)
deriving DecidableEq

/-- `_generate_price_history` inner loop: `count` candles starting at
index `i` with running price `p`; `rnd j` carries the four values drawn
by random.uniform for candle `j` (close factor, high factor, low factor,
volume). -/
def genCandles (t0 : ℤ) (rnd : ℕ → ℚ × ℚ × ℚ × ℚ) : ℕ → ℕ → ℚ → List Candle
  | _, 0, _ => []
  | i, n + 1, p =>
    let r := rnd i
    let closeP := p * r.1
    { ts := t0 + (i : ℤ) * 3600 * 1000
      op := p
      hi := max p closeP * r.2.1
      lo := min p closeP * r.2.2.1
      cl := closeP
      vol := r.2.2.2 } :: genCandles t0 rnd (i + 1) n closeP

/-- `_generate_price_history`: per configured symbol, 24 hourly candles
walked from 95 percent of the initial price. -/
def generate_price_history (t0 : ℤ) (rnd : String → ℕ → ℚ × ℚ × ℚ × ℚ)
    (prices : List (String × ℚ)) : List (String × List Candle) :=
  prices.map (fun p => (p.1, genCandles t0 (rnd p.1) 0 24 (p.2 * (95 / 100))))

/-- Seed balances of `__init__`. -/
def initBalances : List (String × Balance) :=
  [("USDT", ⟨10000, 0, 10000⟩), ("BTC", ⟨1 / 20, 0, 1 / 20⟩),
   ("ETH", ⟨3 / 2, 0, 3 / 2⟩), ("BNB", ⟨10, 0, 10⟩)]

/-- Seed prices of `__init__`. -/
def initPrices : List (String × ℚ) :=
  [("BTC/USDT", 45000), ("ETH/USDT", 2500), ("BNB/USDT", 450),
   ("ADA/USDT", 6 / 5), ("SOL/USDT", 180)]

/-- `MockExchange.__init__`; `t0` is the millisecond timestamp 24 hours
before construction, `rnd` the stream of random draws consumed by the
candle generator. -/
def initState (t0 : ℤ) (rnd : String → ℕ → ℚ × ℚ × ℚ × ℚ) : ExchangeState :=
  { balances := initBalances
    orders := []
    orderCounter := 1000
    currentPrices := initPrices
    priceHistory := generate_price_history t0 rnd initPrices }

/-- `MockExchange.create_order`.  Returns the order record and the state
after the call; every raise happens before any mutation in the source,
so an error leaves the state unchanged. -/
def create_order (s : ExchangeState) (symbol order_type side : String)
    (amount : ℚ) (price : Option ℚ) : Except MockErr (Order × ExchangeState) :=
  match alookup s.currentPrices symbol with
  | none => .error (.unknownSymbol symbol)
  | some cur =>
    if order_type ≠ "market" ∧ order_type ≠ "limit" then
      .error (.invalidOrderType order_type)
    else if side ≠ "buy" ∧ side ≠ "sell" then
      .error (.invalidSide side)
    else
      let mket := order_type = "market" ∨ price = none
      let order_price :=
        if mket then cur * (if side = "buy" then 1001 / 1000 else 999 / 1000)
        else price.getD 0
      let order_status := if mket then "closed" else "open"
      let filled := if mket then amount else 0
      let base := (splitSymbol symbol).1
      let quote := (splitSymbol symbol).2
      let finish : List (String × Balance) → Except MockErr (Order × ExchangeState) :=
        fun balances =>
          let oid := s.orderCounter
          let ord : Order :=
            { id := oid, symbol := symbol, type := order_type, side := side
              price := order_price, amount := amount, cost := amount * order_price
              average := order_price, filled := filled
              remaining := amount - filled, status := order_status }
          .ok (ord, { s with balances := balances
                             orders := (oid, ord) :: s.orders
                             orderCounter := oid + 1 })
      if side = "buy" then
        let needed := amount * order_price
        match alookup s.balances quote with
        | none => .error (.keyError quote)
        | some b =>
          if b.free < needed then .error (.insufficientFunds quote)
          else finish (aupdate s.balances quote
            (fun bb => { bb with free := bb.free - needed, used := bb.used + needed }))
      else
        match alookup s.balances base with
        | none => .error (.keyError base)
        | some b =>
          if b.free < amount then .error (.insufficientFunds base)
          else finish (aupdate s.balances base
            (fun bb => { bb with free := bb.free - amount, used := bb.used + amount }))

/-- `MockExchange.cancel_order` (the symbol argument is accepted and
ignored, as in the source). -/
def cancel_order (s : ExchangeState) (order_id : ℕ) (symbol : String) :
    Except MockErr (Order × ExchangeState) :=
  let _ := symbol
  match alookup s.orders order_id with
  | none => .error (.orderNotFound order_id)
  | some ord =>
    if ord.status = "closed" then .error (.cannotCancelClosed order_id)
    else
      let base := (splitSymbol ord.symbol).1
      let quote := (splitSymbol ord.symbol).2
      let cancelled_cost := ord.remaining * ord.price
      let finish : List (String × Balance) → Except MockErr (Order × ExchangeState) :=
        fun balances =>
          let ord2 : Order := { ord with status := "canceled", remaining := 0 }
          .ok (ord2, { s with balances := balances
                              orders := aupdate s.orders order_id (fun _ => ord2) })
      if ord.side = "buy" then
        match alookup s.balances quote with
        | none => .error (.keyError quote)
        | some _ =>
          finish (aupdate s.balances quote
            (fun bb => { bb with used := bb.used - cancelled_cost
                                 free := bb.free + cancelled_cost }))
      else
        match alookup s.balances base with
        | none => .error (.keyError base)
        | some _ =>
          finish (aupdate s.balances base
            (fun bb => { bb with used := bb.used - ord.remaining
                                 free := bb.free + ord.remaining }))

/-- `MockExchange.fetch_order`: a pure read. -/
def fetch_order (s : ExchangeState) (order_id : ℕ) (symbol : String) :
    Except MockErr Order :=
  let _ := symbol
  match alookup s.orders order_id with
  | none => .error (.orderNotFound order_id)
  | some o => .ok o

/-- `MockExchange.fetch_open_orders`: a pure read; an empty symbol string
is falsy in the source and applies no filter. -/
def fetch_open_orders (s : ExchangeState) (symbol : Option String) : List Order :=
  let os := (s.orders.map Prod.snd).filter (fun o => o.status == "open")
  match symbol with
  | none => os
  | some sym => if sym = "" then os else os.filter (fun o => o.symbol == sym)

/-- `MockExchange.fetch_balance`: a pure read returning the stored
balances plus three zero-balance minor currencies. -/
def fetch_balance (s : ExchangeState) : List (String × Balance) :=
  s.balances ++ [("XRP", ⟨0, 0, 0⟩), ("DOGE", ⟨0, 0, 0⟩), ("SHIB", ⟨0, 0, 0⟩)]

/-- Ticker response (`open` is rendered `openP`; the four volume fields
carry the values drawn by random.uniform). -/
structure Ticker where
  symbol : String
  high : ℚ
  low : ℚ
  bid : ℚ
  bidVolume : ℚ
  ask : ℚ
  askVolume : ℚ
  vwap : ℚ
  openP : ℚ
  close : ℚ
  last : ℚ
  previousClose : ℚ
  change : ℚ
  percentage : ℚ
  average : ℚ
  baseVolume : ℚ
  quoteVolume : ℚ
deriving DecidableEq

/-- `MockExchange.fetch_ticker`: computes the spread from the stored
price, then drifts the stored price by the drawn factor `r` (the
intentional side effect), then derives every response field from the
drifted price. -/
def fetch_ticker (s : ExchangeState) (symbol : String) (r : ℚ)
    (vols : ℚ × ℚ × ℚ × ℚ) : Except MockErr (Ticker × ExchangeState) :=
  match alookup s.currentPrices symbol with
  | none => .error (.unknownSymbol symbol)
  | some p =>
    let spread := p * (5 / 10000)
    let price := p * r
    .ok ({ symbol := symbol
           high := price * (102 / 100), low := price * (98 / 100)
           bid := price - spread, bidVolume := vols.1
           ask := price + spread, askVolume := vols.2.1
           vwap := price, openP := price * (98 / 100)
           close := price, last := price
           previousClose := price * (99 / 100)
           change := price - price * (99 / 100)
           percentage := 1, average := price
           baseVolume := vols.2.2.1, quoteVolume := vols.2.2.2 },
         { s with currentPrices := aupdate s.currentPrices symbol (fun _ => price) })

/-- Lexicographic order on `[price, size]` pairs: how Python compares the
two-element lists fed to `sorted`. -/
def lexLe (x y : ℚ × ℚ) : Prop := x.1 < y.1 ∨ (x.1 = y.1 ∧ x.2 ≤ y.2)

/-- Reversed lexicographic order, for `sorted(bids, reverse=True)`. -/
def lexGe (x y : ℚ × ℚ) : Prop := lexLe y x

instance : DecidableRel lexLe := fun x y =>
  inferInstanceAs (Decidable (x.1 < y.1 ∨ (x.1 = y.1 ∧ x.2 ≤ y.2)))

instance : DecidableRel lexGe := fun x y => inferInstanceAs (Decidable (lexLe y x))

/-- Order book response. -/
structure OrderBook where
  symbol : String
  bids : List (ℚ × ℚ)
  asks : List (ℚ × ℚ)
deriving DecidableEq

/-- `MockExchange.fetch_order_book`: `limit or 20` levels per side at
`price * (1 -+ 0.0001 * (i + 1))` with drawn sizes `bsz i` and `asz i`,
bids sorted descending and asks ascending (a stable sort, modelled by
insertion sort). -/
def fetch_order_book (s : ExchangeState) (symbol : String) (limit : Option ℕ)
    (bsz asz : ℕ → ℚ) : Except MockErr OrderBook :=
  match alookup s.currentPrices symbol with
  | none => .error (.unknownSymbol symbol)
  | some price =>
    let lim := match limit with
      | none => 20
      | some l => if l = 0 then 20 else l
    let bids := (List.range lim).map
      (fun i : ℕ => (price * (1 - (1 / 10000) * ((i : ℚ) + 1)), bsz i))
    let asks := (List.range lim).map
      (fun i : ℕ => (price * (1 + (1 / 10000) * ((i : ℚ) + 1)), asz i))
    .ok { symbol := symbol
          bids := bids.insertionSort lexGe
          asks := asks.insertionSort lexLe }

/-- `MockExchange.fetch_ohlcv`: the precomputed series, sliced to
`candles[-limit:]` when `limit` is truthy. -/
def fetch_ohlcv (s : ExchangeState) (symbol : String) (limit : Option ℕ) :
    Except MockErr (List Candle) :=
  match alookup s.currentPrices symbol with
  | none => .error (.unknownSymbol symbol)
  | some _ =>
    let candles := (alookup s.priceHistory symbol).getD []
    match limit with
    | none => .ok candles
    | some l => .ok (if l = 0 then candles else candles.drop (candles.length - l))

/-- One adapter call, with the random draws it consumes made explicit.
The fetch variants that mutate nothing are grouped as `readOp`. -/
inductive Op where
  | create (symbol order_type side : String) (amount : ℚ) (price : Option ℚ)
  | cancel (order_id : ℕ) (symbol : String)
  | ticker (symbol : String) (r : ℚ) (vols : ℚ × ℚ × ℚ × ℚ)
  | readOp

/-- State transition of one adapter call: the state after the call, the
call state being unchanged when the call raises (every raise in the
source happens before the first mutation of the raising call). -/
def applyOp (s : ExchangeState) : Op → ExchangeState
  | .create symbol order_type side amount price =>
    match create_order s symbol order_type side amount price with
    | .ok (_, s2) => s2
    | .error _ => s
  | .cancel order_id symbol =>
    match cancel_order s order_id symbol with
    | .ok (_, s2) => s2
    | .error _ => s
  | .ticker symbol r vols =>
    match fetch_ticker s symbol r vols with
    | .ok (_, s2) => s2
    | .error _ => s
  | .readOp => s

/-- A sequence of adapter calls applied from a start state. -/
def run (s : ExchangeState) (ops : List Op) : ExchangeState :=
  ops.foldl applyOp s

/-- Well-formed call: order amounts and supplied limit prices are
nonnegative, and ticker drift factors lie in the range that
random.uniform(0.9995, 1.0005) actually samples. -/
def wfOp : Op → Bool
  | .create _ _ _ amount price =>
    decide (0 ≤ amount) &&
      (match price with
       | none => true
       | some x => decide (0 ≤ x))
  | .ticker _ r _ => decide (1999 / 2000 ≤ r) && decide (r ≤ 2001 / 2000)
  | _ => true

/-- Boolean check that every candle after the first opens at the close
of its predecessor. -/
def chainOk : List Candle → Bool
  | a :: b :: t => decide (b.op = a.cl) && chainOk (b :: t)
  | _ => true

/-- The amount an order keeps reserved in a given asset: for an order
still `open`, its remaining notional in the quote asset (buy) or its
remaining quantity in the base asset (sell); nothing otherwise. -/
def reservedOf (o : Order) (a : String) : ℚ :=
  if o.status = "open" then
    if o.side = "buy" then
      if a = (splitSymbol o.symbol).2 then o.remaining * o.price else 0
    else
      if a = (splitSymbol o.symbol).1 then o.remaining else 0
  else 0

/-- Total amount reserved in an asset by the open orders of the registry. -/
def openReserved (orders : List (ℕ × Order)) (a : String) : ℚ :=
  (orders.map (fun p => reservedOf p.2 a)).sum

/-- Prices stay nonnegative. -/
def PriceNonneg (s : ExchangeState) : Prop := ∀ p ∈ s.currentPrices, 0 ≤ p.2

/-- Structural facts about stored orders. -/
def OrdersOk (s : ExchangeState) : Prop :=
  ∀ p ∈ s.orders,
    0 ≤ (p.2 : Order).remaining ∧ 0 ≤ (p.2 : Order).price ∧
    ((p.2 : Order).status = "open" ∨ (p.2 : Order).status = "closed" ∨
      (p.2 : Order).status = "canceled") ∧
    ((p.2 : Order).status = "canceled" → (p.2 : Order).remaining = 0)

/-- The double-entry facts: totals split into free plus used, free is
nonnegative, and used covers the outstanding reservations. -/
def BalancesOk (s : ExchangeState) : Prop :=
  ∀ p ∈ s.balances,
    (p.2 : Balance).total = (p.2 : Balance).free + (p.2 : Balance).used ∧
    0 ≤ (p.2 : Balance).free ∧
    openReserved s.orders p.1 ≤ (p.2 : Balance).used

/-- Counter and id bookkeeping: ids start at the 1000 offset, stored ids
sit below the counter, keys are distinct, and balance keys are distinct. -/
def IdsOk (s : ExchangeState) : Prop :=
  1000 ≤ s.orderCounter ∧ (∀ p ∈ s.orders, (p.1 : ℕ) < s.orderCounter) ∧
  (s.orders.map Prod.fst).Nodup ∧ (s.balances.map Prod.fst).Nodup

/-- The reachable-state invariant. -/
def StateInv (s : ExchangeState) : Prop :=
  PriceNonneg s ∧ OrdersOk s ∧ BalancesOk s ∧ IdsOk s

/-- A fixed stream of random draws inside the ranges the source samples,
used by the concrete scenarios. -/
def rndS : String → ℕ → ℚ × ℚ × ℚ × ℚ := fun _ _ => (1, 101 / 100, 99 / 100, 500)

/-- Concrete seeded exchange used by the scenarios. -/
def st0 : ExchangeState := initState 0 rndS

/-- Scenario state: after `create_order('ETH/USDT','limit','buy',1.0,1500.0)`. -/
def stE1 : ExchangeState := applyOp st0 (.create "ETH/USDT" "limit" "buy" 1 (some 1500))

/-- Scenario state: after cancelling that limit order once. -/
def stE2 : ExchangeState := applyOp stE1 (.cancel 1000 "ETH/USDT")

/-- Derived view of create_order step 2: the execution price (market
path when the type is market or no price was supplied). -/
def execPriceOf (cur : ℚ) (order_type side : String) (price : Option ℚ) : ℚ :=
  if order_type = "market" ∨ price = none then
    cur * (if side = "buy" then 1001 / 1000 else 999 / 1000)
  else price.getD 0

/-- Derived view of create_order step 3: the asset reserved against. -/
def reservAssetOf (symbol side : String) : String :=
  if side = "buy" then (splitSymbol symbol).2 else (splitSymbol symbol).1

/-- Derived view of create_order step 3: the amount reserved. -/
def reservAmtOf (side : String) (amount exec_price : ℚ) : ℚ :=
  if side = "buy" then amount * exec_price else amount

/-- Derived view: the order record built by a successful create_order. -/
def mkOrderOf (s : ExchangeState) (symbol order_type side : String)
    (amount : ℚ) (price : Option ℚ) (cur : ℚ) : Order :=
  let mket := order_type = "market" ∨ price = none
  let p := execPriceOf cur order_type side price
  let filled : ℚ := if mket then amount else 0
  { id := s.orderCounter, symbol := symbol, type := order_type, side := side
    price := p, amount := amount, cost := amount * p, average := p
    filled := filled, remaining := amount - filled
    status := if mket then "closed" else "open" }

/-- The balance mutation of a reservation (free to used). -/
def reserveFn (needed : ℚ) : Balance → Balance :=
  fun bb => { bb with free := bb.free - needed, used := bb.used + needed }

/-- The balance mutation of a release (used back to free). -/
def releaseFn (amt : ℚ) : Balance → Balance :=
  fun bb => { bb with used := bb.used - amt, free := bb.free + amt }

/-- Derived view of fetch_order_book: the effective depth `limit or 20`. -/
def obDepth (limit : Option ℕ) : ℕ :=
  match limit with
  | none => 20
  | some l => if l = 0 then 20 else l

/-- The limit order stored by the ETH scenario creation. -/
def ordE1 : Order :=
  { id := 1000, symbol := "ETH/USDT", type := "limit", side := "buy", price := 1500
    amount := 1, cost := 1500, average := 1500, filled := 0, remaining := 1
    status := "open" }

/-- The same order after its first cancellation. -/
def ordE1c : Order :=
  { id := 1000, symbol := "ETH/USDT", type := "limit", side := "buy", price := 1500
    amount := 1, cost := 1500, average := 1500, filled := 0, remaining := 0
    status := "canceled" }

/-- The order returned by the seed market buy of 0.01 BTC. -/
def ordB1 : Order :=
  { id := 1000, symbol := "BTC/USDT", type := "market", side := "buy", price := 45045
    amount := 1 / 100, cost := 9009 / 20, average := 45045, filled := 1 / 100
    remaining := 0, status := "closed" }

/-- Scenario state: after the seed market buy of 0.01 BTC. -/
def stB1 : ExchangeState := applyOp st0 (.create "BTC/USDT" "market" "buy" (1 / 100) none)

section AssocLemmas

variable {κ α : Type} [DecidableEq κ]

theorem alookup_mem {l : List (κ × α)} {k : κ} {v : α}
    (h : alookup l k = some v) : (k, v) ∈ l := by
  induction l with
  | nil => simp [alookup] at h
  | cons p t ih =>
    obtain ⟨k1, v1⟩ := p
    by_cases hk : k1 = k
    · subst hk
      simp [alookup] at h
      simp [h]
    · simp [alookup, hk] at h
      exact List.mem_cons_of_mem _ (ih h)

theorem alookup_eq_of_mem_nodup {l : List (κ × α)} {k : κ} {v : α}
    (hnd : (l.map Prod.fst).Nodup) (hm : (k, v) ∈ l) : alookup l k = some v := by
  induction l with
  | nil => simp at hm
  | cons p t ih =>
    obtain ⟨k1, v1⟩ := p
    simp only [List.map_cons, List.nodup_cons] at hnd
    rcases List.mem_cons.mp hm with h | h
    · cases h
      simp [alookup]
    · have hk : k1 ≠ k := by
        rintro rfl
        exact hnd.1 (List.mem_map.mpr ⟨(k1, v), h, rfl⟩)
      simp [alookup, hk]
      exact ih hnd.2 h

theorem alookup_isSome_iff {l : List (κ × α)} {k : κ} :
    (alookup l k).isSome = true ↔ k ∈ l.map Prod.fst := by
  induction l with
  | nil => simp [alookup]
  | cons p t ih =>
    obtain ⟨k1, v1⟩ := p
    by_cases hk : k1 = k
    · subst hk; simp [alookup]
    · simp [alookup, hk, ih, Ne.symm hk]

theorem alookup_aupdate (l : List (κ × α)) (k : κ) (f : α → α) (a : κ) :
    alookup (aupdate l k f) a =
      if a = k then (alookup l a).map f else alookup l a := by
  induction l with
  | nil => simp [alookup, aupdate]
  | cons p t ih =>
    obtain ⟨k1, v1⟩ := p
    by_cases h1 : k1 = k
    · subst h1
      have hstep : aupdate ((k1, v1) :: t) k1 f = (k1, f v1) :: aupdate t k1 f := by
        simp [aupdate]
      rw [hstep]
      by_cases h2 : k1 = a
      · subst h2
        simp [alookup, ih]
      · have h2s : ¬a = k1 := fun e => h2 e.symm
        simp [alookup, h2, h2s, ih]
    · have hstep : aupdate ((k1, v1) :: t) k f = (k1, v1) :: aupdate t k f := by
        simp [aupdate, h1]
      rw [hstep]
      by_cases h2 : k1 = a
      · subst h2
        simp [alookup, h1]
      · simp [alookup, h1, h2, ih]

theorem aupdate_map_fst (l : List (κ × α)) (k : κ) (f : α → α) :
    (aupdate l k f).map Prod.fst = l.map Prod.fst := by
  induction l with
  | nil => rfl
  | cons p t ih =>
    obtain ⟨k1, v1⟩ := p
    by_cases h : k1 = k <;> simp [aupdate, h] at ih ⊢ <;> exact ih

theorem mem_aupdate {l : List (κ × α)} {k : κ} {f : α → α} {p : κ × α}
    (h : p ∈ aupdate l k f) :
    (∃ q ∈ l, q.1 = k ∧ p = (q.1, f q.2)) ∨ (p ∈ l ∧ p.1 ≠ k) := by
  obtain ⟨q, hq, hqe⟩ := List.mem_map.mp h
  by_cases hk : q.1 = k
  · left
    exact ⟨q, hq, hk, by simp [hk] at hqe; simp [← hqe, hk]⟩
  · right
    simp [hk] at hqe
    subst hqe
    exact ⟨hq, hk⟩

theorem aupdate_of_not_mem {l : List (κ × α)} {k : κ} (f : α → α)
    (h : k ∉ l.map Prod.fst) : aupdate l k f = l := by
  induction l with
  | nil => rfl
  | cons p t ih =>
    obtain ⟨k1, v1⟩ := p
    simp only [List.map_cons, List.mem_cons, not_or] at h
    have h1 : ¬k1 = k := fun e => h.1 e.symm
    have hstep : aupdate ((k1, v1) :: t) k f =
        (if k1 = k then (k1, f v1) else (k1, v1)) :: aupdate t k f := rfl
    rw [hstep, if_neg h1]
    exact congrArg (List.cons (k1, v1)) (ih h.2)

theorem aupdate_id {l : List (κ × α)} {k : κ} {f : α → α}
    (h : ∀ x, f x = x) : aupdate l k f = l := by
  induction l with
  | nil => rfl
  | cons p t ih =>
    obtain ⟨k1, v1⟩ := p
    have hstep : aupdate ((k1, v1) :: t) k f =
        (if k1 = k then (k1, f v1) else (k1, v1)) :: aupdate t k f := rfl
    rw [hstep]
    by_cases h1 : k1 = k
    · rw [if_pos h1, h v1]
      exact congrArg (List.cons (k1, v1)) ih
    · rw [if_neg h1]
      exact congrArg (List.cons (k1, v1)) ih

end AssocLemmas

theorem genCandles_length (t0 : ℤ) (rnd : ℕ → ℚ × ℚ × ℚ × ℚ) :
    ∀ (n i : ℕ) (p : ℚ), (genCandles t0 rnd i n p).length = n := by
  intro n
  induction n with
  | zero => intro i p; rfl
  | succ m ih => intro i p; simpa [genCandles] using ih (i + 1) (p * (rnd i).1)

theorem genCandles_head_op (t0 : ℤ) (rnd : ℕ → ℚ × ℚ × ℚ × ℚ)
    (n i : ℕ) (p : ℚ) :
    ((genCandles t0 rnd i (n + 1) p).head?.map Candle.op) = some p := rfl

theorem genCandles_chain (t0 : ℤ) (rnd : ℕ → ℚ × ℚ × ℚ × ℚ) :
    ∀ (n i : ℕ) (p : ℚ), chainOk (genCandles t0 rnd i n p) = true := by
  intro n
  induction n with
  | zero => intro i p; rfl
  | succ m ih =>
    intro i p
    cases m with
    | zero => rfl
    | succ k =>
      have hih := ih (i + 1) (p * (rnd i).1)
      simp only [genCandles, chainOk] at hih ⊢
      simp_all

theorem create_ok_shape {s : ExchangeState} {sym ot sd : String} {amt : ℚ}
    {pr : Option ℚ} {o : Order} {s2 : ExchangeState}
    (h : create_order s sym ot sd amt pr = .ok (o, s2)) :
    ∃ cur b,
      alookup s.currentPrices sym = some cur ∧
      alookup s.balances (reservAssetOf sym sd) = some b ∧
      ¬b.free < reservAmtOf sd amt (execPriceOf cur ot sd pr) ∧
      o = mkOrderOf s sym ot sd amt pr cur ∧
      s2 = { s with
        balances := aupdate s.balances (reservAssetOf sym sd)
          (reserveFn (reservAmtOf sd amt (execPriceOf cur ot sd pr)))
        orders := (s.orderCounter, o) :: s.orders
        orderCounter := s.orderCounter + 1 } := by
  unfold create_order at h
  cases hcur : alookup s.currentPrices sym with
  | none => simp only [hcur] at h; cases h
  | some cur =>
    simp only [hcur] at h
    refine ⟨cur, ?_⟩
    by_cases hty : ot ≠ "market" ∧ ot ≠ "limit"
    · rw [if_pos hty] at h; cases h
    · rw [if_neg hty] at h
      by_cases hsd : sd ≠ "buy" ∧ sd ≠ "sell"
      · rw [if_pos hsd] at h; cases h
      · rw [if_neg hsd] at h
        by_cases hbuy : sd = "buy"
        · subst hbuy
          rw [if_pos rfl] at h
          cases hb : alookup s.balances (splitSymbol sym).2 with
          | none => simp only [hb] at h; cases h
          | some b =>
            simp only [hb, if_true] at h
            by_cases hfree : b.free <
                amt * (if ot = "market" ∨ pr = none then
                  cur * (1001 / 1000) else pr.getD 0)
            · rw [if_pos hfree] at h; cases h
            · rw [if_neg hfree] at h
              rw [Except.ok.injEq, Prod.mk.injEq] at h
              obtain ⟨ho, hs⟩ := h
              refine ⟨b, rfl, ?_, ?_, ?_, ?_⟩
              · simpa [reservAssetOf] using hb
              · simpa [reservAmtOf, execPriceOf] using hfree
              · rw [← ho]; simp [mkOrderOf, execPriceOf]
              · rw [← hs, ← ho]
                simp only [reservAssetOf, reservAmtOf, execPriceOf, reserveFn]
                norm_num
                rfl
        · rw [if_neg hbuy] at h
          cases hb : alookup s.balances (splitSymbol sym).1 with
          | none => simp only [hb] at h; cases h
          | some b =>
            simp only [hb] at h
            by_cases hfree : b.free < amt
            · rw [if_pos hfree] at h; cases h
            · rw [if_neg hfree] at h
              rw [Except.ok.injEq, Prod.mk.injEq] at h
              obtain ⟨ho, hs⟩ := h
              refine ⟨b, rfl, ?_, ?_, ?_, ?_⟩
              · simpa [reservAssetOf, hbuy] using hb
              · simpa [reservAmtOf, hbuy] using hfree
              · rw [← ho]; simp [mkOrderOf, execPriceOf, hbuy]
              · rw [← hs, ← ho]
                simp only [reservAssetOf, reservAmtOf, execPriceOf, reserveFn,
                  if_neg hbuy]
                rfl

theorem cancel_ok_shape {s : ExchangeState} {oid : ℕ} {sym : String}
    {o2 : Order} {s2 : ExchangeState}
    (h : cancel_order s oid sym = .ok (o2, s2)) :
    ∃ ord b,
      alookup s.orders oid = some ord ∧
      ord.status ≠ "closed" ∧
      alookup s.balances (reservAssetOf ord.symbol ord.side) = some b ∧
      o2 = { ord with status := "canceled", remaining := 0 } ∧
      s2 = { s with
        balances := aupdate s.balances (reservAssetOf ord.symbol ord.side)
          (releaseFn (if ord.side = "buy" then ord.remaining * ord.price
            else ord.remaining))
        orders := aupdate s.orders oid
          (fun _ => { ord with status := "canceled", remaining := 0 }) } := by
  unfold cancel_order at h
  cases ho : alookup s.orders oid with
  | none => simp only [ho] at h; cases h
  | some ord =>
    simp only [ho] at h
    by_cases hcl : ord.status = "closed"
    · rw [if_pos hcl] at h; cases h
    · rw [if_neg hcl] at h
      by_cases hbuy : ord.side = "buy"
      · rw [if_pos hbuy] at h
        cases hb : alookup s.balances (splitSymbol ord.symbol).2 with
        | none => simp only [hb] at h; cases h
        | some b =>
          simp only [hb] at h
          rw [Except.ok.injEq, Prod.mk.injEq] at h
          obtain ⟨ho2, hs⟩ := h
          refine ⟨ord, b, rfl, hcl, ?_, ho2.symm, ?_⟩
          · simpa [reservAssetOf, hbuy] using hb
          · rw [← hs]
            simp only [reservAssetOf, releaseFn, if_pos hbuy]
            rfl
      · rw [if_neg hbuy] at h
        cases hb : alookup s.balances (splitSymbol ord.symbol).1 with
        | none => simp only [hb] at h; cases h
        | some b =>
          simp only [hb] at h
          rw [Except.ok.injEq, Prod.mk.injEq] at h
          obtain ⟨ho2, hs⟩ := h
          refine ⟨ord, b, rfl, hcl, ?_, ho2.symm, ?_⟩
          · simpa [reservAssetOf, hbuy] using hb
          · rw [← hs]
            simp only [reservAssetOf, releaseFn, if_neg hbuy]
            rfl

theorem ticker_ok_shape {s : ExchangeState} {sym : String} {r : ℚ}
    {vols : ℚ × ℚ × ℚ × ℚ} {t : Ticker} {s2 : ExchangeState}
    (h : fetch_ticker s sym r vols = .ok (t, s2)) :
    ∃ p, alookup s.currentPrices sym = some p ∧
      s2 = { s with currentPrices := aupdate s.currentPrices sym (fun _ => p * r) } := by
  unfold fetch_ticker at h
  cases hp : alookup s.currentPrices sym with
  | none => simp only [hp] at h; cases h
  | some p =>
    simp only [hp] at h
    rw [Except.ok.injEq, Prod.mk.injEq] at h
    exact ⟨p, rfl, h.2.symm⟩

theorem applyOp_priceHistory (s : ExchangeState) (op : Op) :
    (applyOp s op).priceHistory = s.priceHistory := by
  cases op with
  | create sym ot sd amt pr =>
    simp only [applyOp]
    cases h : create_order s sym ot sd amt pr with
    | error e => rfl
    | ok v =>
      obtain ⟨o, s2⟩ := v
      obtain ⟨cur, b, -, -, -, -, hs⟩ := create_ok_shape h
      rw [hs]
  | cancel oid sym =>
    simp only [applyOp]
    cases h : cancel_order s oid sym with
    | error e => rfl
    | ok v =>
      obtain ⟨o, s2⟩ := v
      obtain ⟨ord, b, -, -, -, -, hs⟩ := cancel_ok_shape h
      rw [hs]
  | ticker sym r vols =>
    simp only [applyOp]
    cases h : fetch_ticker s sym r vols with
    | error e => rfl
    | ok v =>
      obtain ⟨t, s2⟩ := v
      obtain ⟨p, -, hs⟩ := ticker_ok_shape h
      rw [hs]
  | readOp => rfl

theorem applyOp_prices_fst (s : ExchangeState) (op : Op) :
    (applyOp s op).currentPrices.map Prod.fst = s.currentPrices.map Prod.fst := by
  cases op with
  | create sym ot sd amt pr =>
    simp only [applyOp]
    cases h : create_order s sym ot sd amt pr with
    | error e => rfl
    | ok v =>
      obtain ⟨o, s2⟩ := v
      obtain ⟨cur, b, -, -, -, -, hs⟩ := create_ok_shape h
      rw [hs]
  | cancel oid sym =>
    simp only [applyOp]
    cases h : cancel_order s oid sym with
    | error e => rfl
    | ok v =>
      obtain ⟨o, s2⟩ := v
      obtain ⟨ord, b, -, -, -, -, hs⟩ := cancel_ok_shape h
      rw [hs]
  | ticker sym r vols =>
    simp only [applyOp]
    cases h : fetch_ticker s sym r vols with
    | error e => rfl
    | ok v =>
      obtain ⟨t, s2⟩ := v
      obtain ⟨p, -, hs⟩ := ticker_ok_shape h
      rw [hs]
      dsimp only
      apply aupdate_map_fst
  | readOp => rfl

theorem applyOp_balances_fst (s : ExchangeState) (op : Op) :
    (applyOp s op).balances.map Prod.fst = s.balances.map Prod.fst := by
  cases op with
  | create sym ot sd amt pr =>
    simp only [applyOp]
    cases h : create_order s sym ot sd amt pr with
    | error e => rfl
    | ok v =>
      obtain ⟨o, s2⟩ := v
      obtain ⟨cur, b, -, -, -, -, hs⟩ := create_ok_shape h
      rw [hs]
      dsimp only
      apply aupdate_map_fst
  | cancel oid sym =>
    simp only [applyOp]
    cases h : cancel_order s oid sym with
    | error e => rfl
    | ok v =>
      obtain ⟨o, s2⟩ := v
      obtain ⟨ord, b, -, -, -, -, hs⟩ := cancel_ok_shape h
      rw [hs]
      dsimp only
      apply aupdate_map_fst
  | ticker sym r vols =>
    simp only [applyOp]
    cases h : fetch_ticker s sym r vols with
    | error e => rfl
    | ok v =>
      obtain ⟨t, s2⟩ := v
      obtain ⟨p, -, hs⟩ := ticker_ok_shape h
      rw [hs]
  | readOp => rfl

theorem run_priceHistory (ops : List Op) (s : ExchangeState) :
    (run s ops).priceHistory = s.priceHistory := by
  induction ops generalizing s with
  | nil => rfl
  | cons op t ih =>
    show (run (applyOp s op) t).priceHistory = s.priceHistory
    rw [ih, applyOp_priceHistory]

theorem run_prices_fst (ops : List Op) (s : ExchangeState) :
    (run s ops).currentPrices.map Prod.fst = s.currentPrices.map Prod.fst := by
  induction ops generalizing s with
  | nil => rfl
  | cons op t ih =>
    show (run (applyOp s op) t).currentPrices.map Prod.fst = _
    rw [ih, applyOp_prices_fst]

theorem run_balances_fst (ops : List Op) (s : ExchangeState) :
    (run s ops).balances.map Prod.fst = s.balances.map Prod.fst := by
  induction ops generalizing s with
  | nil => rfl
  | cons op t ih =>
    show (run (applyOp s op) t).balances.map Prod.fst = _
    rw [ih, applyOp_balances_fst]

theorem reservedOf_nonneg {o : Order} {a : String}
    (h1 : 0 ≤ o.remaining) (h2 : 0 ≤ o.price) : 0 ≤ reservedOf o a := by
  unfold reservedOf
  split_ifs
  all_goals first
    | exact mul_nonneg h1 h2
    | exact h1
    | exact le_refl 0

theorem reservedOf_not_open {o : Order} {a : String}
    (h : o.status ≠ "open") : reservedOf o a = 0 := by
  unfold reservedOf
  rw [if_neg h]

theorem reservedOf_other {o : Order} {a : String}
    (h : a ≠ reservAssetOf o.symbol o.side) : reservedOf o a = 0 := by
  unfold reservedOf
  by_cases h1 : o.status = "open"
  · rw [if_pos h1]
    by_cases h2 : o.side = "buy"
    · have hq : ¬a = (splitSymbol o.symbol).2 := by
        intro ha
        exact h (by simpa [reservAssetOf, h2] using ha)
      rw [if_pos h2, if_neg hq]
    · have hq : ¬a = (splitSymbol o.symbol).1 := by
        intro ha
        exact h (by simpa [reservAssetOf, h2] using ha)
      rw [if_neg h2, if_neg hq]
  · rw [if_neg h1]

theorem reservedOf_at_asset {o : Order} (hopen : o.status = "open") :
    reservedOf o (reservAssetOf o.symbol o.side) =
      if o.side = "buy" then o.remaining * o.price else o.remaining := by
  unfold reservedOf reservAssetOf
  rw [if_pos hopen]
  by_cases hb : o.side = "buy" <;> simp [hb]

theorem openReserved_nil (a : String) : openReserved [] a = 0 := rfl

theorem openReserved_cons (k : ℕ) (o : Order) (l : List (ℕ × Order)) (a : String) :
    openReserved ((k, o) :: l) a = reservedOf o a + openReserved l a := by
  simp [openReserved]

theorem openReserved_nonneg {l : List (ℕ × Order)} {a : String}
    (h : ∀ p ∈ l, 0 ≤ (p.2 : Order).remaining ∧ 0 ≤ (p.2 : Order).price) :
    0 ≤ openReserved l a := by
  unfold openReserved
  apply List.sum_nonneg
  intro x hx
  obtain ⟨p, hp, rfl⟩ := List.mem_map.mp hx
  exact reservedOf_nonneg (h p hp).1 (h p hp).2

theorem openReserved_aupdate {l : List (ℕ × Order)} {k : ℕ} {o : Order}
    (o2 : Order) (a : String)
    (hnd : (l.map Prod.fst).Nodup) (hlk : alookup l k = some o) :
    openReserved (aupdate l k (fun _ => o2)) a
      = openReserved l a - reservedOf o a + reservedOf o2 a := by
  induction l with
  | nil => simp [alookup] at hlk
  | cons p t ih =>
    obtain ⟨k1, v1⟩ := p
    simp only [List.map_cons, List.nodup_cons] at hnd
    by_cases hk : k1 = k
    · subst hk
      have hv : v1 = o := by simpa [alookup] using hlk
      subst hv
      have hstep : aupdate ((k1, v1) :: t) k1 (fun _ => o2)
          = (k1, o2) :: aupdate t k1 (fun _ => o2) := by
        simp [aupdate]
      rw [hstep, aupdate_of_not_mem _ hnd.1, openReserved_cons, openReserved_cons]
      ring
    · have hstep : aupdate ((k1, v1) :: t) k (fun _ => o2)
          = (k1, v1) :: aupdate t k (fun _ => o2) := by
        simp [aupdate, hk]
      have hlk2 : alookup t k = some o := by simpa [alookup, hk] using hlk
      rw [hstep, openReserved_cons, openReserved_cons, ih hnd.2 hlk2]
      ring

theorem stateInv_create {s : ExchangeState} {sym ot sd : String} {amt : ℚ}
    {pr : Option ℚ} {o : Order} {s2 : ExchangeState}
    (hinv : StateInv s) (hamt : 0 ≤ amt)
    (hpr : ∀ x, pr = some x → 0 ≤ x)
    (h : create_order s sym ot sd amt pr = .ok (o, s2)) : StateInv s2 := by
  obtain ⟨hP, hO, hB, hcnt, hlt, hndO, hndB⟩ := hinv
  obtain ⟨cur, b, hcur, hb, hfree, ho, hs⟩ := create_ok_shape h
  have hcur0 : 0 ≤ cur := hP _ (alookup_mem hcur)
  have hep : 0 ≤ execPriceOf cur ot sd pr := by
    unfold execPriceOf
    split_ifs with h1 h2
    · exact mul_nonneg hcur0 (by norm_num)
    · exact mul_nonneg hcur0 (by norm_num)
    · cases hx : pr with
      | none => simp [hx] at h1
      | some x => simpa [hx] using hpr x hx
  have hneed0 : 0 ≤ reservAmtOf sd amt (execPriceOf cur ot sd pr) := by
    unfold reservAmtOf
    split_ifs
    · exact mul_nonneg hamt hep
    · exact hamt
  have hrem_eq : o.remaining = if ot = "market" ∨ pr = none then 0 else amt := by
    rw [ho]; unfold mkOrderOf; dsimp only; split_ifs <;> ring
  have hrem0 : 0 ≤ o.remaining := by
    rw [hrem_eq]; split_ifs
    · exact le_refl 0
    · exact hamt
  have hstatus : o.status = if ot = "market" ∨ pr = none then "closed" else "open" := by
    rw [ho]; rfl
  have hprice : o.price = execPriceOf cur ot sd pr := by rw [ho]; rfl
  have hsideo : o.side = sd := by rw [ho]; rfl
  have hsymo : o.symbol = sym := by rw [ho]; rfl
  have hres_other : ∀ a2, a2 ≠ reservAssetOf sym sd → reservedOf o a2 = 0 := by
    intro a2 ha2
    apply reservedOf_other
    rw [hsymo, hsideo]
    exact ha2
  have hres_le : reservedOf o (reservAssetOf sym sd)
      ≤ reservAmtOf sd amt (execPriceOf cur ot sd pr) := by
    by_cases hmk : ot = "market" ∨ pr = none
    · rw [reservedOf_not_open (by rw [hstatus, if_pos hmk]; decide)]
      exact hneed0
    · have hopen : o.status = "open" := by rw [hstatus, if_neg hmk]
      have hra := reservedOf_at_asset hopen
      rw [hsymo, hsideo] at hra
      rw [hra, hrem_eq, hprice, if_neg hmk]
      unfold reservAmtOf
      exact le_refl _
  subst hs
  refine ⟨?_, ?_, ?_, ?_, ?_, ?_, ?_⟩
  · exact hP
  · intro p hp
    rcases List.mem_cons.mp hp with hp1 | hp2
    · subst hp1
      dsimp only
      refine ⟨hrem0, ?_, ?_, ?_⟩
      · rw [hprice]; exact hep
      · rw [hstatus]; split_ifs
        · right; left; rfl
        · left; rfl
      · intro hcanc
        rw [hstatus] at hcanc
        by_cases hmk : ot = "market" ∨ pr = none
        · rw [if_pos hmk] at hcanc; exact absurd hcanc (by decide)
        · rw [if_neg hmk] at hcanc; exact absurd hcanc (by decide)
    · exact hO p hp2
  · intro p hp
    dsimp only at hp ⊢
    rcases mem_aupdate hp with ⟨q, hq, hq1, rfl⟩ | ⟨hp2, hne⟩
    · have hqb : q.2 = b := by
        have := alookup_eq_of_mem_nodup hndB (show (q.1, q.2) ∈ s.balances from hq)
        rw [hq1, hb] at this
        exact (Option.some.inj this).symm
      obtain ⟨hbt, hbf, hbu⟩ := hB (reservAssetOf sym sd, b) (alookup_mem hb)
      dsimp only at hbt hbf hbu
      refine ⟨?_, ?_, ?_⟩
      · dsimp only [reserveFn]
        rw [hqb, hbt]; ring
      · dsimp only [reserveFn]
        rw [hqb]
        have := not_lt.mp hfree
        linarith
      · dsimp only [reserveFn]
        rw [hqb, hq1, openReserved_cons]
        have := add_le_add hres_le hbu
        linarith
    · obtain ⟨hbt, hbf, hbu⟩ := hB p hp2
      refine ⟨hbt, hbf, ?_⟩
      rw [openReserved_cons, hres_other p.1 hne]
      linarith
  · exact le_trans hcnt (Nat.le_succ _)
  · intro p hp
    rcases List.mem_cons.mp hp with hp1 | hp2
    · subst hp1; exact Nat.lt_succ_self _
    · exact Nat.lt_succ_of_lt (hlt p hp2)
  · refine List.nodup_cons.mpr ⟨?_, hndO⟩
    intro hmem
    obtain ⟨p, hp, hpe⟩ := List.mem_map.mp hmem
    exact absurd (hpe ▸ hlt p hp) (lt_irrefl _)
  · rw [aupdate_map_fst]
    exact hndB

theorem stateInv_cancel {s : ExchangeState} {oid : ℕ} {sym : String}
    {o2 : Order} {s2 : ExchangeState}
    (hinv : StateInv s) (h : cancel_order s oid sym = .ok (o2, s2)) : StateInv s2 := by
  obtain ⟨hP, hO, hB, hcnt, hlt, hndO, hndB⟩ := hinv
  obtain ⟨ord, b, ho, hncl, hb, ho2, hs⟩ := cancel_ok_shape h
  obtain ⟨hrem0, hpr0, hstset, hcancrem⟩ := hO (oid, ord) (alookup_mem ho)
  have hrel0 : 0 ≤ if ord.side = "buy" then ord.remaining * ord.price
      else ord.remaining := by
    split_ifs
    · exact mul_nonneg hrem0 hpr0
    · exact hrem0
  have hsts : ord.status = "open" ∨ ord.status = "canceled" := by
    rcases hstset with h1 | h1 | h1
    · exact Or.inl h1
    · exact absurd h1 hncl
    · exact Or.inr h1
  have hres_asset : reservedOf ord (reservAssetOf ord.symbol ord.side)
      = if ord.side = "buy" then ord.remaining * ord.price else ord.remaining := by
    rcases hsts with hsO | hsC
    · exact reservedOf_at_asset hsO
    · rw [reservedOf_not_open (by rw [hsC]; decide), hcancrem hsC]
      split_ifs <;> ring
  have ho2st : o2.status = "canceled" := by rw [ho2]
  have ho2rem : o2.remaining = 0 := by rw [ho2]
  have ho2pr : o2.price = ord.price := by rw [ho2]
  have ho2res : ∀ a2, reservedOf o2 a2 = 0 := fun a2 =>
    reservedOf_not_open (by rw [ho2st]; decide)
  rw [← ho2] at hs
  have hsum : ∀ a2, openReserved (aupdate s.orders oid (fun _ => o2)) a2
      = openReserved s.orders a2 - reservedOf ord a2 := by
    intro a2
    rw [openReserved_aupdate o2 a2 hndO ho, ho2res a2]
    ring
  subst hs
  refine ⟨hP, ?_, ?_, hcnt, ?_, ?_, ?_⟩
  · intro p hp
    dsimp only at hp
    rcases mem_aupdate hp with ⟨q, hq, hq1, rfl⟩ | ⟨hp2, hne⟩
    · dsimp only
      refine ⟨?_, ?_, ?_, ?_⟩
      · rw [ho2rem]
      · rw [ho2pr]; exact hpr0
      · exact Or.inr (Or.inr ho2st)
      · intro _; exact ho2rem
    · exact hO p hp2
  · intro p hp
    dsimp only at hp ⊢
    rcases mem_aupdate hp with ⟨q, hq, hq1, rfl⟩ | ⟨hp2, hne⟩
    · have hqb : q.2 = b := by
        have h2 := alookup_eq_of_mem_nodup hndB
          (show (q.1, q.2) ∈ s.balances from hq)
        rw [hq1, hb] at h2
        exact (Option.some.inj h2).symm
      obtain ⟨hbt, hbf, hbu⟩ := hB (reservAssetOf ord.symbol ord.side, b)
        (alookup_mem hb)
      dsimp only at hbt hbf hbu
      refine ⟨?_, ?_, ?_⟩
      · dsimp only [releaseFn]
        rw [hqb, hbt]; ring
      · dsimp only [releaseFn]
        rw [hqb]
        linarith
      · dsimp only [releaseFn]
        rw [hqb, hq1, hsum, hres_asset]
        linarith
    · obtain ⟨hbt, hbf, hbu⟩ := hB p hp2
      refine ⟨hbt, hbf, ?_⟩
      rw [hsum, reservedOf_other hne]
      linarith
  · intro p hp
    dsimp only at hp
    rcases mem_aupdate hp with ⟨q, hq, hq1, rfl⟩ | ⟨hp2, hne⟩
    · exact hlt q hq
    · exact hlt p hp2
  · rw [aupdate_map_fst]; exact hndO
  · rw [aupdate_map_fst]; exact hndB

theorem stateInv_ticker {s : ExchangeState} {sym : String} {r : ℚ}
    {vols : ℚ × ℚ × ℚ × ℚ} {t : Ticker} {s2 : ExchangeState}
    (hinv : StateInv s) (hr : 1999 / 2000 ≤ r)
    (h : fetch_ticker s sym r vols = .ok (t, s2)) : StateInv s2 := by
  obtain ⟨hP, hO, hB, hcnt, hlt, hndO, hndB⟩ := hinv
  obtain ⟨p, hp, hs⟩ := ticker_ok_shape h
  have hr0 : (0 : ℚ) ≤ r := le_trans (by norm_num) hr
  subst hs
  refine ⟨?_, hO, hB, hcnt, hlt, hndO, hndB⟩
  intro q hq
  dsimp only at hq
  rcases mem_aupdate hq with ⟨q1, hq1, hq1k, rfl⟩ | ⟨hq2, hne⟩
  · exact mul_nonneg (hP _ (alookup_mem hp)) hr0
  · exact hP q hq2

theorem idsOk_applyOp {s : ExchangeState} (op : Op) (hids : IdsOk s) :
    IdsOk (applyOp s op) := by
  obtain ⟨hcnt, hlt, hndO, hndB⟩ := hids
  cases op with
  | create sym ot sd amt pr =>
    simp only [applyOp]
    cases h : create_order s sym ot sd amt pr with
    | error e => exact ⟨hcnt, hlt, hndO, hndB⟩
    | ok v =>
      obtain ⟨o, s2⟩ := v
      obtain ⟨cur, b, -, -, -, -, hs⟩ := create_ok_shape h
      subst hs
      refine ⟨le_trans hcnt (Nat.le_succ _), ?_, ?_, ?_⟩
      · intro p hp
        rcases List.mem_cons.mp hp with hp1 | hp2
        · subst hp1; exact Nat.lt_succ_self _
        · exact Nat.lt_succ_of_lt (hlt p hp2)
      · refine List.nodup_cons.mpr ⟨?_, hndO⟩
        intro hmem
        obtain ⟨p, hp, hpe⟩ := List.mem_map.mp hmem
        exact absurd (hpe ▸ hlt p hp) (lt_irrefl _)
      · rw [aupdate_map_fst]; exact hndB
  | cancel oid sym2 =>
    simp only [applyOp]
    cases h : cancel_order s oid sym2 with
    | error e => exact ⟨hcnt, hlt, hndO, hndB⟩
    | ok v =>
      obtain ⟨o, s2⟩ := v
      obtain ⟨ord, b, -, -, -, -, hs⟩ := cancel_ok_shape h
      subst hs
      refine ⟨hcnt, ?_, ?_, ?_⟩
      · intro p hp
        dsimp only at hp
        rcases mem_aupdate hp with ⟨q, hq, hq1, rfl⟩ | ⟨hp2, hne⟩
        · exact hlt q hq
        · exact hlt p hp2
      · rw [aupdate_map_fst]; exact hndO
      · rw [aupdate_map_fst]; exact hndB
  | ticker sym2 r vols =>
    simp only [applyOp]
    cases h : fetch_ticker s sym2 r vols with
    | error e => exact ⟨hcnt, hlt, hndO, hndB⟩
    | ok v =>
      obtain ⟨t, s2⟩ := v
      obtain ⟨p, -, hs⟩ := ticker_ok_shape h
      subst hs
      exact ⟨hcnt, hlt, hndO, hndB⟩
  | readOp => exact ⟨hcnt, hlt, hndO, hndB⟩

theorem idsOk_run {s : ExchangeState} (ops : List Op) (hids : IdsOk s) :
    IdsOk (run s ops) := by
  induction ops generalizing s with
  | nil => exact hids
  | cons op t ih => exact ih (idsOk_applyOp op hids)

theorem stateInv_applyOp {s : ExchangeState} {op : Op}
    (hinv : StateInv s) (hwf : wfOp op = true) : StateInv (applyOp s op) := by
  cases op with
  | create sym ot sd amt pr =>
    simp only [wfOp, Bool.and_eq_true, decide_eq_true_eq] at hwf
    have hamt := hwf.1
    have hpr : ∀ x, pr = some x → 0 ≤ x := by
      intro x hx
      have h2 := hwf.2
      rw [hx] at h2
      simpa using h2
    simp only [applyOp]
    cases h : create_order s sym ot sd amt pr with
    | error e => exact hinv
    | ok v =>
      obtain ⟨o, s2⟩ := v
      exact stateInv_create hinv hamt hpr h
  | cancel oid sym2 =>
    simp only [applyOp]
    cases h : cancel_order s oid sym2 with
    | error e => exact hinv
    | ok v =>
      obtain ⟨o, s2⟩ := v
      exact stateInv_cancel hinv h
  | ticker sym2 r vols =>
    simp only [wfOp, Bool.and_eq_true, decide_eq_true_eq] at hwf
    simp only [applyOp]
    cases h : fetch_ticker s sym2 r vols with
    | error e => exact hinv
    | ok v =>
      obtain ⟨t, s2⟩ := v
      exact stateInv_ticker hinv hwf.1 h
  | readOp => exact hinv

theorem stateInv_run {s : ExchangeState} (ops : List Op)
    (hinv : StateInv s) (hwf : ops.all wfOp = true) : StateInv (run s ops) := by
  induction ops generalizing s with
  | nil => exact hinv
  | cons op t ih =>
    simp only [List.all_cons, Bool.and_eq_true] at hwf
    exact ih (stateInv_applyOp hinv hwf.1) hwf.2

theorem stateInv_init (t0 : ℤ) (rnd : String → ℕ → ℚ × ℚ × ℚ × ℚ) :
    StateInv (initState t0 rnd) := by
  refine ⟨?_, ?_, ?_, ?_, ?_, ?_, ?_⟩
  · show ∀ p ∈ initPrices, 0 ≤ p.2
    intro p hp
    fin_cases hp <;> norm_num
  · show ∀ p ∈ ([] : List (ℕ × Order)),
      0 ≤ (p.2 : Order).remaining ∧ 0 ≤ (p.2 : Order).price ∧
      ((p.2 : Order).status = "open" ∨ (p.2 : Order).status = "closed" ∨
        (p.2 : Order).status = "canceled") ∧
      ((p.2 : Order).status = "canceled" → (p.2 : Order).remaining = 0)
    decide
  · show ∀ p ∈ initBalances,
      (p.2 : Balance).total = (p.2 : Balance).free + (p.2 : Balance).used ∧
      0 ≤ (p.2 : Balance).free ∧
      openReserved [] p.1 ≤ (p.2 : Balance).used
    intro p hp
    fin_cases hp <;>
      exact ⟨by norm_num, by norm_num, by rw [openReserved_nil]⟩
  · show (1000 : ℕ) ≤ 1000
    decide
  · show ∀ p ∈ ([] : List (ℕ × Order)), (p.1 : ℕ) < 1000
    decide
  · show (([] : List (ℕ × Order)).map Prod.fst).Nodup
    decide
  · show (initBalances.map Prod.fst).Nodup
    decide

theorem splitSymbol_btc : splitSymbol "BTC/USDT" = ("BTC", "USDT") := by decide

theorem splitSymbol_eth : splitSymbol "ETH/USDT" = ("ETH", "USDT") := by decide

theorem splitSymbol_bnb : splitSymbol "BNB/USDT" = ("BNB", "USDT") := by decide

theorem splitSymbol_ada : splitSymbol "ADA/USDT" = ("ADA", "USDT") := by decide

theorem splitSymbol_sol : splitSymbol "SOL/USDT" = ("SOL", "USDT") := by decide

theorem alookup_map_entry {κ α β : Type} [DecidableEq κ] (F : κ → α → β)
    (l : List (κ × α)) (k : κ) :
    alookup (l.map (fun q => (q.1, F q.1 q.2))) k = (alookup l k).map (F k) := by
  induction l with
  | nil => rfl
  | cons q t ih =>
    obtain ⟨k1, v1⟩ := q
    by_cases h : k1 = k
    · subst h; simp [alookup]
    · simp [alookup, h, ih]

theorem alookup_history {t0 : ℤ} {rnd : String → ℕ → ℚ × ℚ × ℚ × ℚ}
    {symbol : String} {p : ℚ} (hp : alookup initPrices symbol = some p) :
    alookup (generate_price_history t0 rnd initPrices) symbol
      = some (genCandles t0 (rnd symbol) 0 24 (p * (95 / 100))) := by
  have h2 := alookup_map_entry
    (fun (k : String) (v : ℚ) => genCandles t0 (rnd k) 0 24 (v * (95 / 100)))
    initPrices symbol
  rw [hp] at h2
  exact h2

theorem fetch_ohlcv_run_eval {t0 : ℤ} {rnd : String → ℕ → ℚ × ℚ × ℚ × ℚ}
    {ops : List Op} {symbol : String} {p : ℚ}
    (hp : alookup initPrices symbol = some p) (limit : Option ℕ) :
    fetch_ohlcv (run (initState t0 rnd) ops) symbol limit = .ok
      (match limit with
       | none => genCandles t0 (rnd symbol) 0 24 (p * (95 / 100))
       | some l =>
         if l = 0 then genCandles t0 (rnd symbol) 0 24 (p * (95 / 100))
         else (genCandles t0 (rnd symbol) 0 24 (p * (95 / 100))).drop
           ((genCandles t0 (rnd symbol) 0 24 (p * (95 / 100))).length - l)) := by
  have hmem : symbol ∈ (run (initState t0 rnd) ops).currentPrices.map Prod.fst := by
    rw [run_prices_fst]
    exact List.mem_map.mpr ⟨(symbol, p), alookup_mem hp, rfl⟩
  obtain ⟨cur, hcur⟩ := Option.isSome_iff_exists.mp (alookup_isSome_iff.mpr hmem)
  have hhist : (run (initState t0 rnd) ops).priceHistory
      = generate_price_history t0 rnd initPrices := run_priceHistory ops _
  unfold fetch_ohlcv
  simp only [hcur, hhist, alookup_history hp, Option.getD_some]
  cases limit <;> rfl

theorem bids_raw_sorted {p : ℚ} (hp : 0 < p) (d : ℕ) (bsz : ℕ → ℚ) :
    List.Sorted lexGe ((List.range d).map
      (fun i : ℕ => (p * (1 - (1 / 10000) * ((i : ℚ) + 1)), bsz i))) := by
  have h := List.pairwise_lt_range d
  unfold List.Sorted
  rw [List.pairwise_map]
  refine h.imp ?_
  intro a b hab
  have hab2 : (a : ℚ) < b := by exact_mod_cast hab
  exact Or.inl (mul_lt_mul_of_pos_left (by linarith) hp)

theorem asks_raw_sorted {p : ℚ} (hp : 0 < p) (d : ℕ) (asz : ℕ → ℚ) :
    List.Sorted lexLe ((List.range d).map
      (fun i : ℕ => (p * (1 + (1 / 10000) * ((i : ℚ) + 1)), asz i))) := by
  have h := List.pairwise_lt_range d
  unfold List.Sorted
  rw [List.pairwise_map]
  refine h.imp ?_
  intro a b hab
  have hab2 : (a : ℚ) < b := by exact_mod_cast hab
  exact Or.inl (mul_lt_mul_of_pos_left (by linarith) hp)

theorem fetch_order_book_eval {s : ExchangeState} {sym : String} {p : ℚ}
    (hp : alookup s.currentPrices sym = some p) (hp0 : 0 < p)
    (limit : Option ℕ) (bsz asz : ℕ → ℚ) :
    fetch_order_book s sym limit bsz asz = .ok
      { symbol := sym
        bids := (List.range (obDepth limit)).map
          (fun i : ℕ => (p * (1 - (1 / 10000) * ((i : ℚ) + 1)), bsz i))
        asks := (List.range (obDepth limit)).map
          (fun i : ℕ => (p * (1 + (1 / 10000) * ((i : ℚ) + 1)), asz i)) } := by
  unfold fetch_order_book
  simp only [hp]
  have hd : (match limit with
    | none => 20
    | some l => if l = 0 then 20 else l) = obDepth limit := rfl
  rw [hd, (bids_raw_sorted hp0 (obDepth limit) bsz).insertionSort_eq,
    (asks_raw_sorted hp0 (obDepth limit) asz).insertionSort_eq]

theorem stE1_eval : stE1 =
    { balances := [("USDT", ⟨8500, 1500, 10000⟩), ("BTC", ⟨1 / 20, 0, 1 / 20⟩),
        ("ETH", ⟨3 / 2, 0, 3 / 2⟩), ("BNB", ⟨10, 0, 10⟩)]
      orders := [(1000, ordE1)]
      orderCounter := 1001
      currentPrices := initPrices
      priceHistory := generate_price_history 0 rndS initPrices } := by
  norm_num +decide [stE1, st0, applyOp, create_order, initState, initPrices,
    initBalances, alookup, aupdate, splitSymbol_eth, ordE1]

theorem stE2_eval : stE2 =
    { balances := [("USDT", ⟨10000, 0, 10000⟩), ("BTC", ⟨1 / 20, 0, 1 / 20⟩),
        ("ETH", ⟨3 / 2, 0, 3 / 2⟩), ("BNB", ⟨10, 0, 10⟩)]
      orders := [(1000, ordE1c)]
      orderCounter := 1001
      currentPrices := initPrices
      priceHistory := generate_price_history 0 rndS initPrices } := by
  norm_num +decide [stE2, stE1_eval, applyOp, cancel_order, alookup, aupdate,
    splitSymbol_eth, ordE1, ordE1c]

theorem stB1_eval : create_order st0 "BTC/USDT" "market" "buy" (1 / 100) none
    = .ok (ordB1, stB1) := by
  norm_num +decide [stB1, st0, applyOp, create_order, initState, initPrices,
    initBalances, alookup, aupdate, splitSymbol_btc, ordB1]

/-- C1: the code result of a market buy on a known symbol with
sufficient quote funds (amended): the quote free balance falls by
exactly amount times execution price and that sum moves into used (a
reservation, never settled), the quote total and the whole base asset
record are unchanged, and the returned order is closed with
filled = amount, remaining = 0 at price = current price times 1.001. -/
theorem market_buy_reserves_quote_only (s : ExchangeState)
    (sym base quote : String) (amt cur : ℚ) (b : Balance)
    (hsplit : splitSymbol sym = (base, quote))
    (hbq : base ≠ quote)
    (hcur : alookup s.currentPrices sym = some cur)
    (hb : alookup s.balances quote = some b)
    (hfree : amt * (cur * (1001 / 1000)) ≤ b.free) :
    (create_order s sym "market" "buy" amt none).map
      (fun r => (r.1.status, r.1.filled, r.1.remaining, r.1.price,
        alookup r.2.balances quote, alookup r.2.balances base))
      = .ok ("closed", amt, (0 : ℚ), cur * (1001 / 1000),
        some ⟨b.free - amt * (cur * (1001 / 1000)),
              b.used + amt * (cur * (1001 / 1000)), b.total⟩,
        alookup s.balances base) := by
  unfold create_order
  simp only [hcur, hsplit, hb, or_self, true_or, or_true, if_true,
    not_lt.mpr hfree, if_false]
  rw [if_neg (by decide : ¬(("market" : String) ≠ "market" ∧
      ("market" : String) ≠ "limit"))]
  rw [if_neg (by decide : ¬(("buy" : String) ≠ "buy" ∧
      ("buy" : String) ≠ "sell"))]
  simp only [Except.map, alookup_aupdate]
  simp [hb, hbq]

theorem create_insufficient_shape {s : ExchangeState} {sym ot sd : String}
    {amt : ℚ} {pr : Option ℚ} {cur : ℚ} {b : Balance}
    (hcur : alookup s.currentPrices sym = some cur)
    (hty : ¬(ot ≠ "market" ∧ ot ≠ "limit"))
    (hsd : ¬(sd ≠ "buy" ∧ sd ≠ "sell"))
    (hb : alookup s.balances (reservAssetOf sym sd) = some b)
    (hlt : b.free < reservAmtOf sd amt (execPriceOf cur ot sd pr)) :
    create_order s sym ot sd amt pr
      = .error (.insufficientFunds (reservAssetOf sym sd)) := by
  unfold create_order
  simp only [hcur]
  rw [if_neg hty, if_neg hsd]
  by_cases hbuy : sd = "buy"
  · subst hbuy
    rw [if_pos rfl]
    simp only [reservAssetOf, reservAmtOf, execPriceOf, eq_self_iff_true,
      if_true] at hb hlt ⊢
    simp only [hb]
    rw [if_pos hlt]
  · rw [if_neg hbuy]
    simp only [reservAssetOf, reservAmtOf, execPriceOf, if_neg hbuy] at hb hlt ⊢
    simp only [hb]
    rw [if_pos hlt]

/-- C4: a create_order whose required reservation exceeds the free
balance of the reservation asset raises InsufficientFunds and leaves the
exchange state (hence every balance) exactly unchanged. -/
theorem insufficient_funds_rejects_cleanly (s : ExchangeState)
    (sym ot sd asset : String) (amt : ℚ) (pr : Option ℚ) (cur : ℚ) (b : Balance)
    (hcur : alookup s.currentPrices sym = some cur)
    (hty : ot = "market" ∨ ot = "limit")
    (hsd : sd = "buy" ∨ sd = "sell")
    (hasset : asset = reservAssetOf sym sd)
    (hb : alookup s.balances asset = some b)
    (hlt : b.free < reservAmtOf sd amt (execPriceOf cur ot sd pr)) :
    create_order s sym ot sd amt pr = .error (.insufficientFunds asset) ∧
    applyOp s (.create sym ot sd amt pr) = s := by
  subst hasset
  have hmain := create_insufficient_shape hcur
    (by rcases hty with rfl | rfl <;> simp)
    (by rcases hsd with rfl | rfl <;> simp) hb hlt
  refine ⟨hmain, ?_⟩
  simp only [applyOp, hmain]

/-- C9: a limit order submitted without a price is not rejected; it is
routed through the market branch, so the returned order has type limit
but status closed, filled = amount, remaining = 0, priced with the
market slippage factor. -/
theorem limit_order_without_price_fills_as_market (s : ExchangeState)
    (sym sd asset : String) (amt cur : ℚ) (b : Balance)
    (hcur : alookup s.currentPrices sym = some cur)
    (hsd : sd = "buy" ∨ sd = "sell")
    (hasset : asset = reservAssetOf sym sd)
    (hb : alookup s.balances asset = some b)
    (hfree : reservAmtOf sd amt
      (cur * (if sd = "buy" then 1001 / 1000 else 999 / 1000)) ≤ b.free) :
    (create_order s sym "limit" sd amt none).map
      (fun r => (r.1.type, r.1.status, r.1.filled, r.1.remaining, r.1.price))
      = .ok ("limit", "closed", amt, (0 : ℚ),
        cur * (if sd = "buy" then 1001 / 1000 else 999 / 1000)) := by
  subst hasset
  unfold create_order
  simp only [hcur, ne_eq, eq_self_iff_true, not_true, and_false, false_and,
    if_false, or_true, true_or, or_self, if_true]
  rw [if_neg (show ¬(¬sd = "buy" ∧ ¬sd = "sell") by
    rcases hsd with rfl | rfl <;> simp)]
  by_cases hbuy : sd = "buy"
  · subst hbuy
    rw [if_pos rfl, if_pos rfl]
    simp only [reservAssetOf, reservAmtOf, eq_self_iff_true, if_true] at hb hfree
    simp only [hb]
    rw [if_neg (not_lt.mpr hfree)]
    simp [Except.map]
  · rw [if_neg hbuy, if_neg hbuy]
    simp only [reservAssetOf, reservAmtOf, if_neg hbuy] at hb hfree
    simp only [hb]
    rw [if_neg (not_lt.mpr hfree)]
    simp [Except.map, hbuy]

/-- C5: cancelling an open limit order releases exactly the remaining
reserved amount (remaining times price in the quote asset for a buy,
remaining units of the base asset for a sell) from used back to free,
and returns the order with status canceled and remaining 0. -/
theorem cancel_open_order_releases_reservation (s : ExchangeState) (oid : ℕ)
    (sym asset : String) (o : Order) (b : Balance)
    (ho : alookup s.orders oid = some o)
    (hopen : o.status = "open")
    (hasset : asset = (if o.side = "buy" then (splitSymbol o.symbol).2
      else (splitSymbol o.symbol).1))
    (hb : alookup s.balances asset = some b) :
    (cancel_order s oid sym).map
      (fun r => (r.1.status, r.1.remaining, alookup r.2.balances asset))
      = .ok ("canceled", (0 : ℚ),
        some ⟨b.free + (if o.side = "buy" then o.remaining * o.price else o.remaining),
              b.used - (if o.side = "buy" then o.remaining * o.price else o.remaining),
              b.total⟩) := by
  subst hasset
  unfold cancel_order
  simp only [ho]
  rw [if_neg (show ¬o.status = "closed" by rw [hopen]; decide)]
  by_cases hbuy : o.side = "buy"
  · rw [if_pos hbuy] at hb
    rw [if_pos hbuy]
    simp only [hb]
    simp [Except.map, alookup_aupdate, hb, hbuy]
  · rw [if_neg hbuy] at hb
    rw [if_neg hbuy]
    simp only [hb]
    simp [Except.map, alookup_aupdate, hb, hbuy]

/-- C3 (amended): cancelling an order that is already canceled does not
raise; it silently succeeds, releases nothing (remaining is 0), and
returns the order still canceled with every balance record unchanged.
Only orders with status closed are rejected by cancel_order. -/
theorem cancel_canceled_order_silently_succeeds (s : ExchangeState) (oid : ℕ)
    (sym asset : String) (o : Order) (b : Balance)
    (ho : alookup s.orders oid = some o)
    (hst : o.status = "canceled")
    (hrem : o.remaining = 0)
    (hasset : asset = (if o.side = "buy" then (splitSymbol o.symbol).2
      else (splitSymbol o.symbol).1))
    (hb : alookup s.balances asset = some b) :
    (cancel_order s oid sym).map
      (fun r => (r.1.status, r.1.remaining, r.2.balances))
      = .ok ("canceled", (0 : ℚ), s.balances) := by
  subst hasset
  unfold cancel_order
  simp only [ho]
  rw [if_neg (show ¬o.status = "closed" by rw [hst]; decide)]
  by_cases hbuy : o.side = "buy"
  · rw [if_pos hbuy] at hb
    rw [if_pos hbuy]
    simp only [hb]
    have hid : aupdate s.balances (splitSymbol o.symbol).2
        (fun bb => { bb with used := bb.used - o.remaining * o.price
                             free := bb.free + o.remaining * o.price })
        = s.balances := by
      apply aupdate_id
      intro x
      rw [hrem]
      simp
    rw [hid]
    simp [Except.map]
  · rw [if_neg hbuy] at hb
    rw [if_neg hbuy]
    simp only [hb]
    have hid : aupdate s.balances (splitSymbol o.symbol).1
        (fun bb => { bb with used := bb.used - o.remaining
                             free := bb.free + o.remaining })
        = s.balances := by
      apply aupdate_id
      intro x
      rw [hrem]
      simp
    rw [hid]
    simp [Except.map]

/-- C2 (amended): after every sequence of adapter calls whose
create_order amounts and limit prices are nonnegative and whose ticker
drift factors lie in the sampled range, every stored balance satisfies
total = free + used with free and used nonnegative. -/
theorem balances_double_entry_invariant (t0 : ℤ)
    (rnd : String → ℕ → ℚ × ℚ × ℚ × ℚ) (ops : List Op)
    (hwf : ops.all wfOp = true) (a : String) (b : Balance)
    (hb : alookup (run (initState t0 rnd) ops).balances a = some b) :
    b.total = b.free + b.used ∧ 0 ≤ b.free ∧ 0 ≤ b.used := by
  obtain ⟨hP, hO, hB, hids⟩ := stateInv_run ops (stateInv_init t0 rnd) hwf
  obtain ⟨ht, hf, hu⟩ := hB (a, b) (alookup_mem hb)
  refine ⟨ht, hf, le_trans (openReserved_nonneg ?_) hu⟩
  intro p hp
  exact ⟨(hO p hp).1, (hO p hp).2.1⟩

/-- C7: every successful create_order assigns an id at or above the 1000
offset and strictly greater than every id already stored, and from the
seed state the first order gets id 1000. -/
theorem order_ids_strictly_increasing (t0 : ℤ)
    (rnd : String → ℕ → ℚ × ℚ × ℚ × ℚ) (ops : List Op)
    (sym ot sd : String) (amt : ℚ) (pr : Option ℚ) (o : Order)
    (s2 : ExchangeState)
    (h : create_order (run (initState t0 rnd) ops) sym ot sd amt pr
      = .ok (o, s2)) :
    1000 ≤ o.id ∧
    ((run (initState t0 rnd) ops).orders.all
      (fun q => decide (q.1 < o.id)) = true) ∧
    (ops = [] → o.id = 1000) := by
  obtain ⟨hcnt, hlt, hnd, hndB⟩ := idsOk_run ops (stateInv_init t0 rnd).2.2.2
  obtain ⟨cur, b, -, -, -, ho, -⟩ := create_ok_shape h
  have hid : o.id = (run (initState t0 rnd) ops).orderCounter := by rw [ho]; rfl
  refine ⟨by rw [hid]; exact hcnt, ?_, ?_⟩
  · rw [List.all_eq_true]
    intro q hq
    rw [decide_eq_true_eq, hid]
    exact hlt q hq
  · intro hops
    subst hops
    rw [hid]
    rfl

/-- C8 (amended): fetch_order_book returns exactly `limit or 20` levels
per side, level i priced at current price times (1 -+ 0.0001(i+1)) — an
arithmetic, not geometric, progression — with bids sorted descending and
asks ascending. -/
theorem order_book_linear_levels (s : ExchangeState) (sym : String) (p : ℚ)
    (limit : Option ℕ) (bsz asz : ℕ → ℚ)
    (hp : alookup s.currentPrices sym = some p) (hp0 : 0 < p) :
    fetch_order_book s sym limit bsz asz = .ok
      { symbol := sym
        bids := (List.range (obDepth limit)).map
          (fun i : ℕ => (p * (1 - (1 / 10000) * ((i : ℚ) + 1)), bsz i))
        asks := (List.range (obDepth limit)).map
          (fun i : ℕ => (p * (1 + (1 / 10000) * ((i : ℚ) + 1)), asz i)) } ∧
    ((List.range (obDepth limit)).map
      (fun i : ℕ => (p * (1 - (1 / 10000) * ((i : ℚ) + 1)), bsz i))).length
      = obDepth limit ∧
    ((List.range (obDepth limit)).map
      (fun i : ℕ => (p * (1 + (1 / 10000) * ((i : ℚ) + 1)), asz i))).length
      = obDepth limit ∧
    List.Sorted lexGe ((List.range (obDepth limit)).map
      (fun i : ℕ => (p * (1 - (1 / 10000) * ((i : ℚ) + 1)), bsz i))) ∧
    List.Sorted lexLe ((List.range (obDepth limit)).map
      (fun i : ℕ => (p * (1 + (1 / 10000) * ((i : ℚ) + 1)), asz i))) :=
  ⟨fetch_order_book_eval hp hp0 limit bsz asz, by simp, by simp,
    bids_raw_sorted hp0 _ bsz, asks_raw_sorted hp0 _ asz⟩

/-- C10: on ADA/USDT and SOL/USDT — symbols that pass the validity check
against the price map but whose base asset has no balance record — a
market sell reaches the unguarded balance lookup and fails with a
KeyError, which is not a MockExchangeError of the documented taxonomy. -/
theorem missing_base_asset_sell_keyerror (t0 : ℤ)
    (rnd : String → ℕ → ℚ × ℚ × ℚ × ℚ) (amt : ℚ) :
    create_order (initState t0 rnd) "ADA/USDT" "market" "sell" amt none
      = .error (.keyError "ADA") ∧
    create_order (initState t0 rnd) "SOL/USDT" "market" "sell" amt none
      = .error (.keyError "SOL") ∧
    MockErr.isMockExchangeError (.keyError "ADA") = false ∧
    MockErr.isMockExchangeError (.keyError "SOL") = false :=
  ⟨rfl, rfl, rfl, rfl⟩

/-- C6 (amended): the candle series is generated once at construction
and never mutated by adapter calls; the default series has 24 candles,
the first opening at initial price times 0.95, each subsequent candle
opening at the close of its predecessor; a positive limit of at most 24
returns exactly the last limit candles, while a limit of 0 (falsy in the
source) returns the whole series. -/
theorem ohlcv_series_generated_once_and_chained (t0 : ℤ)
    (rnd : String → ℕ → ℚ × ℚ × ℚ × ℚ) (ops : List Op) (symbol : String)
    (p : ℚ) (lim : ℕ)
    (hp : alookup initPrices symbol = some p) :
    (run (initState t0 rnd) ops).priceHistory
      = (initState t0 rnd).priceHistory ∧
    ((fetch_ohlcv (run (initState t0 rnd) ops) symbol none).map
      (fun l => (l.length, chainOk l, l.head?.map Candle.op))
      = .ok (24, true, some (p * (95 / 100)))) ∧
    (fetch_ohlcv (run (initState t0 rnd) ops) symbol (some lim)
      = .ok (if lim = 0 then genCandles t0 (rnd symbol) 0 24 (p * (95 / 100))
        else (genCandles t0 (rnd symbol) 0 24 (p * (95 / 100))).drop (24 - lim))) ∧
    (1 ≤ lim → lim ≤ 24 →
      (fetch_ohlcv (run (initState t0 rnd) ops) symbol (some lim)).map
        List.length = .ok lim) := by
  have hlen := genCandles_length t0 (rnd symbol) 24 0 (p * (95 / 100))
  have hsome : fetch_ohlcv (run (initState t0 rnd) ops) symbol (some lim)
      = .ok (if lim = 0 then genCandles t0 (rnd symbol) 0 24 (p * (95 / 100))
        else (genCandles t0 (rnd symbol) 0 24 (p * (95 / 100))).drop
          ((genCandles t0 (rnd symbol) 0 24 (p * (95 / 100))).length - lim)) :=
    fetch_ohlcv_run_eval hp (some lim)
  refine ⟨run_priceHistory ops _, ?_, ?_, ?_⟩
  · rw [fetch_ohlcv_run_eval hp none]
    simp only [Except.map, Except.ok.injEq]
    refine Prod.ext ?_ (Prod.ext ?_ ?_)
    · exact hlen
    · exact genCandles_chain t0 (rnd symbol) 24 0 (p * (95 / 100))
    · exact genCandles_head_op t0 (rnd symbol) 23 0 (p * (95 / 100))
  · rw [hsome, hlen]
  · intro h1l h2l
    rw [hsome, hlen]
    rw [if_neg (by omega : ¬lim = 0)]
    simp only [Except.map, List.length_drop, hlen]
    congr 1
    omega

/-- C1 counterexample: from the seed state the market buy of 0.01 BTC
executes at 45045 (not 45004.5, since 45000 times 1.001 is 45045), and
the BTC total stays 0.05 (not 0.06) while USDT free falls to 9549.55. -/
theorem market_buy_scenario_mismatch :
    ((create_order st0 "BTC/USDT" "market" "buy" (1 / 100) none).map
      (fun r => (r.1.price, (alookup r.2.balances "BTC").map Balance.total,
        (alookup r.2.balances "USDT").map Balance.free))
      = .ok (45045, some (1 / 20), some (190991 / 20))) ∧
    (45045 : ℚ) ≠ 90009 / 2 ∧ (1 / 20 : ℚ) ≠ 3 / 50 ∧
    (190991 / 20 : ℚ) ≠ 1909991 / 200 := by
  refine ⟨?_, by norm_num, by norm_num, by norm_num⟩
  norm_num +decide [create_order, st0, initState, initPrices, initBalances,
    alookup, aupdate, splitSymbol_btc, Except.map]

/-- C1 witness: the amended theorem at the seed scenario. -/
theorem market_buy_reserves_quote_only_witness :
    (create_order st0 "BTC/USDT" "market" "buy" (1 / 100) none).map
      (fun r => (r.1.status, r.1.filled, r.1.remaining, r.1.price,
        alookup r.2.balances "USDT", alookup r.2.balances "BTC"))
      = .ok ("closed", 1 / 100, (0 : ℚ), 45045,
        some ⟨190991 / 20, 9009 / 20, 10000⟩, some ⟨1 / 20, 0, 1 / 20⟩) :=
  (market_buy_reserves_quote_only st0 "BTC/USDT" "BTC" "USDT" (1 / 100) 45000
    ⟨10000, 0, 10000⟩ splitSymbol_btc (by decide) (by decide) (by rfl)
    (by norm_num)).trans
    (by norm_num +decide [st0, initState, initBalances, alookup])

/-- C2 counterexample: a create_order call with amount -1 is accepted
and drives the USDT used bucket to -45045, violating reserved >= 0. -/
theorem balances_double_entry_cex :
    (alookup (run (initState 0 rndS)
      [Op.create "BTC/USDT" "market" "buy" (-1) none]).balances "USDT").map
      Balance.used = some (-45045) ∧
    ¬(0 : ℚ) ≤ -45045 := by
  constructor
  · norm_num +decide [run, applyOp, create_order, initState, initPrices,
      initBalances, alookup, aupdate, splitSymbol_btc]
  · norm_num

/-- C2 witness: the amended invariant theorem after the seed market buy. -/
theorem balances_double_entry_invariant_witness :
    ([Op.create "BTC/USDT" "market" "buy" (1 / 100) none].all wfOp = true) ∧
    alookup (run (initState 0 rndS)
      [Op.create "BTC/USDT" "market" "buy" (1 / 100) none]).balances "USDT"
      = some ⟨190991 / 20, 9009 / 20, 10000⟩ ∧
    ((⟨190991 / 20, 9009 / 20, 10000⟩ : Balance).total
      = (⟨190991 / 20, 9009 / 20, 10000⟩ : Balance).free
        + (⟨190991 / 20, 9009 / 20, 10000⟩ : Balance).used ∧
      0 ≤ (⟨190991 / 20, 9009 / 20, 10000⟩ : Balance).free ∧
      0 ≤ (⟨190991 / 20, 9009 / 20, 10000⟩ : Balance).used) := by
  have hwf : [Op.create "BTC/USDT" "market" "buy" (1 / 100) none].all wfOp
      = true := by
    norm_num [wfOp]
  have hb : alookup (run (initState 0 rndS)
      [Op.create "BTC/USDT" "market" "buy" (1 / 100) none]).balances "USDT"
      = some ⟨190991 / 20, 9009 / 20, 10000⟩ := by
    norm_num +decide [run, applyOp, create_order, initState, initPrices,
      initBalances, alookup, aupdate, splitSymbol_btc]
  exact ⟨hwf, hb,
    balances_double_entry_invariant 0 rndS _ hwf "USDT" _ hb⟩

/-- C3 counterexample: the second cancel on an already canceled order
returns success (status canceled, remaining 0) instead of raising. -/
theorem cancel_canceled_cex :
    (cancel_order stE2 1000 "ETH/USDT").map
      (fun r => (r.1.status, r.1.remaining)) = .ok ("canceled", (0 : ℚ)) ∧
    cancel_order stE2 1000 "ETH/USDT"
      ≠ .error (.cannotCancelClosed 1000) := by
  have h : (cancel_order stE2 1000 "ETH/USDT").map
      (fun r => (r.1.status, r.1.remaining)) = .ok ("canceled", (0 : ℚ)) := by
    norm_num +decide [stE2_eval, cancel_order, alookup, aupdate,
      splitSymbol_eth, ordE1c, Except.map]
  refine ⟨h, ?_⟩
  intro he
  rw [he] at h
  simp [Except.map] at h

/-- C3 witness: the amended theorem at the double-cancel scenario. -/
theorem cancel_canceled_witness :
    (cancel_order stE2 1000 "ETH/USDT").map
      (fun r => (r.1.status, r.1.remaining, r.2.balances))
      = .ok ("canceled", (0 : ℚ), stE2.balances) :=
  cancel_canceled_order_silently_succeeds stE2 1000 "ETH/USDT" "USDT" ordE1c
    ⟨10000, 0, 10000⟩ (by rw [stE2_eval]; rfl) rfl rfl (by rfl)
    (by rw [stE2_eval]; rfl)

/-- C4 witness: selling 1 BTC with free 0.05 raises InsufficientFunds
and leaves the state unchanged. -/
theorem insufficient_funds_witness :
    create_order st0 "BTC/USDT" "market" "sell" 1 none
      = .error (.insufficientFunds "BTC") ∧
    applyOp st0 (.create "BTC/USDT" "market" "sell" 1 none) = st0 :=
  insufficient_funds_rejects_cleanly st0 "BTC/USDT" "market" "sell" "BTC" 1
    none 45000 ⟨1 / 20, 0, 1 / 20⟩ (by decide) (Or.inl rfl) (Or.inr rfl)
    (by rfl) (by rfl) (by norm_num +decide [reservAmtOf, execPriceOf])

/-- C5 witness: cancelling the open 1.0 ETH at 1500 limit buy restores
exactly 1500 USDT from used to free. -/
theorem cancel_open_order_witness :
    (cancel_order stE1 1000 "ETH/USDT").map
      (fun r => (r.1.status, r.1.remaining, alookup r.2.balances "USDT"))
      = .ok ("canceled", (0 : ℚ), some ⟨10000, 0, 10000⟩) :=
  (cancel_open_order_releases_reservation stE1 1000 "ETH/USDT" "USDT" ordE1
    ⟨8500, 1500, 10000⟩ (by rw [stE1_eval]; rfl) rfl (by rfl)
    (by rw [stE1_eval]; rfl)).trans (by norm_num +decide [ordE1])

/-- C6 counterexample: a limit of 0 returns the full 24-candle series,
not a tail of length 0. -/
theorem ohlcv_limit_zero_cex :
    (fetch_ohlcv st0 "BTC/USDT" (some 0)).map List.length = .ok 24 ∧
    (24 : ℕ) ≠ 0 := by
  constructor
  · have h2 : fetch_ohlcv st0 "BTC/USDT" (some 0)
        = .ok (genCandles 0 (rndS "BTC/USDT") 0 24 ((45000 : ℚ) * (95 / 100))) := by
      rw [show st0 = run (initState 0 rndS) [] from rfl]
      rw [fetch_ohlcv_run_eval
        (show alookup initPrices "BTC/USDT" = some 45000 by decide) (some 0)]
      rfl
    rw [h2]
    simp [Except.map, genCandles_length]
  · decide

/-- C6 witness: the amended theorem at the seed state, BTC/USDT, limit 5. -/
theorem ohlcv_witness :
    (run (initState 0 rndS) []).priceHistory
      = (initState 0 rndS).priceHistory ∧
    ((fetch_ohlcv (run (initState 0 rndS) []) "BTC/USDT" none).map
      (fun l => (l.length, chainOk l, l.head?.map Candle.op))
      = .ok (24, true, some ((45000 : ℚ) * (95 / 100)))) ∧
    (fetch_ohlcv (run (initState 0 rndS) []) "BTC/USDT" (some 5)
      = .ok (if (5 : ℕ) = 0 then
          genCandles 0 (rndS "BTC/USDT") 0 24 ((45000 : ℚ) * (95 / 100))
        else (genCandles 0 (rndS "BTC/USDT") 0 24
          ((45000 : ℚ) * (95 / 100))).drop (24 - 5))) ∧
    (1 ≤ 5 → 5 ≤ 24 →
      (fetch_ohlcv (run (initState 0 rndS) []) "BTC/USDT" (some 5)).map
        List.length = .ok 5) :=
  ohlcv_series_generated_once_and_chained 0 rndS [] "BTC/USDT" 45000 5
    (by decide)

/-- C7 witness: the first order from the seed state gets id 1000. -/
theorem order_ids_witness :
    1000 ≤ ordB1.id ∧
    ((run (initState 0 rndS) []).orders.all
      (fun q => decide (q.1 < ordB1.id)) = true) ∧
    (([] : List Op) = [] → ordB1.id = 1000) :=
  order_ids_strictly_increasing 0 rndS [] "BTC/USDT" "market" "buy" (1 / 100)
    none ordB1 stB1 stB1_eval

/-- C8 counterexample: the first three bid levels at current price 45000
are 44995.5, 44991, 44986.5 — equal differences (an arithmetic step of
4.5), not equal ratios, so the levels are not geometrically stepped. -/
theorem order_book_not_geometric_cex :
    ((fetch_order_book st0 "BTC/USDT" (some 3) (fun _ => 1) (fun _ => 1)).map
      (fun ob => ob.bids.map Prod.fst)) = .ok [89991 / 2, 44991, 89973 / 2] ∧
    ¬((44991 : ℚ) * 44991 = (89991 / 2) * (89973 / 2)) ∧
    ((44991 : ℚ) - 89991 / 2 = 89973 / 2 - 44991) := by
  refine ⟨?_, by norm_num, by norm_num⟩
  rw [fetch_order_book_eval
    (show alookup st0.currentPrices "BTC/USDT" = some 45000 by decide)
    (by norm_num) (some 3) (fun _ => 1) (fun _ => 1)]
  norm_num [obDepth, List.range_succ, Except.map]

/-- C8 witness: the amended theorem at the seed state with the default
depth of 20. -/
theorem order_book_witness :
    fetch_order_book st0 "BTC/USDT" none (fun _ => 1) (fun _ => 1) = .ok
      { symbol := "BTC/USDT"
        bids := (List.range 20).map
          (fun i : ℕ => ((45000 : ℚ) * (1 - (1 / 10000) * ((i : ℚ) + 1)), (1 : ℚ)))
        asks := (List.range 20).map
          (fun i : ℕ => ((45000 : ℚ) * (1 + (1 / 10000) * ((i : ℚ) + 1)), (1 : ℚ))) } ∧
    ((List.range 20).map
      (fun i : ℕ => ((45000 : ℚ) * (1 - (1 / 10000) * ((i : ℚ) + 1)), (1 : ℚ)))).length
      = 20 ∧
    ((List.range 20).map
      (fun i : ℕ => ((45000 : ℚ) * (1 + (1 / 10000) * ((i : ℚ) + 1)), (1 : ℚ)))).length
      = 20 ∧
    List.Sorted lexGe ((List.range 20).map
      (fun i : ℕ => ((45000 : ℚ) * (1 - (1 / 10000) * ((i : ℚ) + 1)), (1 : ℚ)))) ∧
    List.Sorted lexLe ((List.range 20).map
      (fun i : ℕ => ((45000 : ℚ) * (1 + (1 / 10000) * ((i : ℚ) + 1)), (1 : ℚ)))) :=
  order_book_linear_levels st0 "BTC/USDT" 45000 none (fun _ => 1) (fun _ => 1)
    (by decide) (by norm_num)

/-- C9 witness: a limit buy with no price from the seed state fills
immediately as a market order at 45045. -/
theorem limit_no_price_witness :
    (create_order st0 "BTC/USDT" "limit" "buy" (1 / 100) none).map
      (fun r => (r.1.type, r.1.status, r.1.filled, r.1.remaining, r.1.price))
      = .ok ("limit", "closed", (1 / 100 : ℚ), (0 : ℚ),
        (45000 : ℚ) * (1001 / 1000)) :=
  limit_order_without_price_fills_as_market st0 "BTC/USDT" "buy" "USDT"
    (1 / 100) 45000 ⟨10000, 0, 10000⟩ (by decide) (Or.inl rfl) (by rfl)
    (by rfl) (by norm_num [reservAmtOf])
